import Mathlib

/-!
Shallow embedding of the cached interval-retrieval engine of
nucleus/io/indexed_fasta_reader.cc: range validation, the single-slot
read cache of IndexedFastaReader::GetBases, Close, and the catalog
iterator IndexedFastaReaderIterable::Next.

The SequenceStore (htslib faidx_fetch_seq) is an external collaborator;
it is modelled as an abstract fetch function taking the contig name and
an inclusive (start, end) pair, returning the fetched characters or a
failure (the code's len <= 0 case).  Machine integers (int64 proto
fields, int cache_size_bases) are modelled by Int: all arithmetic in
GetBases stays far below 2^63 for inputs that pass validation, so
overflow does not occur on any path we reason about.
-/

namespace Nucleus

/-- ContigInfo proto fields used by the reader: name, n_bases (int64,
checked nonnegative at load), position in the fasta. -/
structure ContigInfo where
  name : String
  n_bases : Int
  pos_in_fasta : Nat
deriving Repr, DecidableEq

/-- Range proto: reference_name with a 0-based half-open interval
[start, stop).  The proto field `end` is a Lean keyword, hence `stop`. -/
structure Range where
  reference_name : String
  start : Int
  stop : Int
deriving Repr, DecidableEq

/-- MakeRange from nucleus/util/utils: plain constructor. -/
def MakeRange (name : String) (s e : Int) : Range :=
  ⟨name, s, e⟩

/-- Catalog lookup underlying GenomeReference::Contig: first contig with
the given name. -/
def findContig (contigs : List ContigInfo) (name : String) : Option ContigInfo :=
  contigs.find? (fun c => c.name == name)

/-- Modelled from the spec: IsValidInterval (nucleus/util/utils, not in
src/): the reference name must resolve in the catalog and
0 <= start <= end <= contig length. -/
def IsValidInterval (contigs : List ContigInfo) (r : Range) : Bool :=
  match findContig contigs r.reference_name with
  | none => false
  | some c => decide (0 ≤ r.start ∧ r.start ≤ r.stop ∧ r.stop ≤ c.n_bases)

/-- Modelled from the spec: RangeContains (nucleus/util/utils, not in
src/): same reference_name and full containment
w.start <= r.start and r.end <= w.end. -/
def RangeContains (w r : Range) : Bool :=
  w.reference_name == r.reference_name &&
    decide (w.start ≤ r.start ∧ r.stop ≤ w.stop)

/-- Error taxonomy of the tensorflow Status values the reader returns. -/
inductive Err where
  | FailedPrecondition
  | InvalidArgument
  | NotFound
deriving Repr, DecidableEq

/-- Immutable part of an IndexedFastaReader: the contig catalog loaded
from the fai index, the cache budget, and the SequenceStore fetch
(faidx_fetch_seq with inclusive end addressing; none models len <= 0). -/
structure ReaderConfig where
  contigs : List ContigInfo
  cache_size_bases : Int
  fetch : String → Int → Int → Option (List Char)

/-- Mutable part of an IndexedFastaReader: the open/closed flag
(faidx_ != nullptr) and the single cache slot small_read_cache_ /
cached_range_. -/
structure ReaderState where
  isOpen : Bool
  small_read_cache : List Char
  cached_range : Option Range
deriving Repr, DecidableEq

/-- Result of one GetBases call: the StatusOr value, the post state, and
how many store (faidx_fetch_seq) invocations the call made. -/
structure GBResult where
  res : Except Err (List Char)
  state : ReaderState
  fetches : Nat
deriving Repr

/-- C++ std::string::substr(pos, count): the characters at positions
[pos, pos + count) clipped to the string length (the code only calls it
with pos <= size, where this model is exact). -/
def cppSubstr (s : List Char) (pos count : Nat) : List Char :=
  (s.drop pos).take count

/-- The expansion window of the cached-miss path: start at the requested
start and extend by cache_size_bases, clipped to the contig length
(Contig(...).ValueOrDie()->n_bases(); lookup cannot fail after
IsValidInterval passed). -/
def expandedWindow (cfg : ReaderConfig) (range : Range) : Range :=
  let contig_n_bases :=
    ((findContig cfg.contigs range.reference_name).map ContigInfo.n_bases).getD 0
  MakeRange range.reference_name range.start
    (min (range.start + cfg.cache_size_bases) contig_n_bases)

/-- Tail of GetBases shared by the cached-miss and uncached paths: fetch
range_to_fetch (translating the half-open end to the store's inclusive
end), fail with InvalidArgument on len <= 0, upper-case, and in cached
mode install the window and return the requested-length slice of it. -/
def fetchAndFinish (cfg : ReaderConfig) (s : ReaderState) (range : Range)
    (use_cache : Bool) : GBResult :=
  let range_to_fetch := if use_cache then expandedWindow cfg range else range
  match cfg.fetch range_to_fetch.reference_name range_to_fetch.start
      (range_to_fetch.stop - 1) with
  | none => ⟨.error .InvalidArgument, s, 1⟩
  | some bases =>
    let result := bases.map Char.toUpper
    if use_cache then
      let s' : ReaderState :=
        { s with small_read_cache := result, cached_range := some range_to_fetch }
      ⟨.ok (cppSubstr result 0 (range.stop - range.start).toNat), s', 1⟩
    else
      ⟨.ok result, s, 1⟩

/-- IndexedFastaReader::GetBases. -/
def GetBases (cfg : ReaderConfig) (s : ReaderState) (range : Range) : GBResult :=
  if s.isOpen = false then ⟨.error .FailedPrecondition, s, 0⟩
  else if ¬ IsValidInterval cfg.contigs range then ⟨.error .InvalidArgument, s, 0⟩
  else if range.start = range.stop then ⟨.ok [], s, 0⟩
  else
    let use_cache : Bool := decide (0 < cfg.cache_size_bases) &&
      decide (range.stop - range.start ≤ cfg.cache_size_bases)
    let cacheHit : Option Range :=
      if use_cache then
        match s.cached_range with
        | some w => if RangeContains w range then some w else none
        | none => none
      else none
    match cacheHit with
    | some w =>
      ⟨.ok (cppSubstr s.small_read_cache (range.start - w.start).toNat
        (range.stop - range.start).toNat), s, 0⟩
    | none => fetchAndFinish cfg s range use_cache

/-- IndexedFastaReader::Close: fai_destroy and null the handle; fails
with FailedPrecondition when already closed. -/
def Close (s : ReaderState) : Except Err Unit × ReaderState :=
  if s.isOpen = false then (.error .FailedPrecondition, s)
  else (.ok (), { s with isOpen := false })

/-- IndexedFastaReaderIterable::Next.  A `none` overall result models
program termination: the code materializes the contig's sequence with
GetBases(...).ValueOrDie(), and ValueOrDie CHECK-fails (aborts the
process) when the status is an error.  `some (none, ...)` is the
`return false` end-of-iteration case; `some (some rec, ...)` yields a
record and advances pos_. -/
def Next (cfg : ReaderConfig) (s : ReaderState) (pos : Nat) :
    Option (Option (String × List Char) × ReaderState × Nat) :=
  if h : pos < cfg.contigs.length then
    let contig := cfg.contigs.get ⟨pos, h⟩
    let r := GetBases cfg s (MakeRange contig.name 0 contig.n_bases)
    match r.res with
    | .ok bases => some (some (contig.name, bases), r.state, pos + 1)
    | .error _ => none
  else
    some (none, s, pos)

/-- Run the iterator to exhaustion, collecting the yielded records in
order; fuel bounds the number of Next calls (iterateAll supplies enough
for the whole catalog).  `none` propagates a ValueOrDie abort. -/
def iterFrom (cfg : ReaderConfig) (s : ReaderState) (pos fuel : Nat) :
    Option (List (String × List Char) × ReaderState) :=
  match fuel with
  | 0 => none
  | Nat.succ fuel =>
    match Next cfg s pos with
    | none => none
    | some (none, s', _) => some ([], s')
    | some (some r0, s', pos') =>
      match iterFrom cfg s' pos' fuel with
      | none => none
      | some (l, sf) => some (r0 :: l, sf)

/-- Iterate(): a fresh iterable starting at pos_ = 0, run to the end of
the catalog. -/
def iterateAll (cfg : ReaderConfig) (s : ReaderState) :
    Option (List (String × List Char) × ReaderState) :=
  iterFrom cfg s 0 (cfg.contigs.length + 1)

/-! Store models and state invariants. -/

/-- A faidx-backed store over an in-memory genome g: fetching
(name, start, endInclusive) returns the characters of g name at
positions [start, endInclusive] when they exist, and fails otherwise.
This realizes the SequenceStore collaborator contract of the spec. -/
def genomeFetch (g : String → Option (List Char)) :
    String → Int → Int → Option (List Char) :=
  fun name s e =>
    match g name with
    | none => none
    | some seq =>
      if 0 ≤ s ∧ s ≤ e ∧ e < (seq.length : Int) then
        some ((seq.drop s.toNat).take (e - s + 1).toNat)
      else none

/-- The reference answer for a range over genome g: the upper-cased
characters of g at positions [start, stop). -/
def specBases (g : String → Option (List Char)) (r : Range) : List Char :=
  match g r.reference_name with
  | none => []
  | some seq =>
    ((seq.drop r.start.toNat).take (r.stop - r.start).toNat).map Char.toUpper

/-- The store honours its contract for every region that is in bounds
for the catalog: fetching a nonempty in-bounds inclusive interval of a
catalogued contig succeeds and returns exactly its characters' count. -/
def StoreConsistent (cfg : ReaderConfig) : Prop :=
  ∀ name c, findContig cfg.contigs name = some c →
    ∀ a b : Int, 0 ≤ a → a ≤ b → b < c.n_bases →
      ∃ bs, cfg.fetch name a b = some bs ∧ (bs.length : Int) = b - a + 1

/-- Well-formedness of the cache slot, as GetBases maintains it: the
cached bases have exactly the window's length and hold no lower-case
character. -/
def CacheWF (s : ReaderState) : Prop :=
  ∀ w, s.cached_range = some w →
    w.start ≤ w.stop ∧ (s.small_read_cache.length : Int) = w.stop - w.start ∧
      ∀ c ∈ s.small_read_cache, c.isLower = false

/-- The catalog agrees with genome g about which contigs exist and how
long they are. -/
def CatalogMatches (cfg : ReaderConfig) (g : String → Option (List Char)) : Prop :=
  ∀ c ∈ cfg.contigs, ∃ seq, g c.name = some seq ∧ (seq.length : Int) = c.n_bases

/-- The cache slot holds exactly the upper-cased genome characters of
its window, as every reachable state of a genomeFetch-backed reader
does. -/
def CacheFaithful (g : String → Option (List Char)) (s : ReaderState) : Prop :=
  ∀ w, s.cached_range = some w →
    ∃ seq, g w.reference_name = some seq ∧ 0 ≤ w.start ∧ w.start < w.stop ∧
      w.stop ≤ (seq.length : Int) ∧
      s.small_read_cache =
        ((seq.drop w.start.toNat).take (w.stop - w.start).toNat).map Char.toUpper

/-! Concrete instances used to witness the theorems below. -/

/-- Example genome: one contig chr1 of five bases. -/
def exGenome : String → Option (List Char) :=
  fun n => if n = "chr1" then some ['a', 'c', 'g', 't', 'a'] else none

/-- Example reader configuration over exGenome with cache budget 3. -/
def exCfg : ReaderConfig := ⟨[⟨"chr1", 5, 0⟩], 3, genomeFetch exGenome⟩

/-- Freshly opened reader state: open, empty cache slot. -/
def exOpen : ReaderState := ⟨true, [], none⟩

/-- Reader configuration whose store fails every fetch. -/
def failCfg : ReaderConfig := ⟨[⟨"chr1", 5, 0⟩], 3, fun _ _ _ => none⟩

/-- Genome for the C2 analysis: one contig chr1 of 100 bases. -/
def c2Genome : String → Option (List Char) :=
  fun n => if n = "chr1" then some (List.replicate 100 'a') else none

/-- Reader over c2Genome with cache budget 10, used to analyse the
cache containment law. -/
def c2Cfg : ReaderConfig := ⟨[⟨"chr1", 100, 0⟩], 10, genomeFetch c2Genome⟩

/-! Character-level facts about upper-casing. -/

theorem toNat_ofNat_of_valid (n : Nat) (h : n.isValidChar) :
    (Char.ofNat n).toNat = n := by
  unfold Char.ofNat
  rw [dif_pos h]
  rfl

theorem isLower_iff (c : Char) : c.isLower = true ↔ 97 ≤ c.toNat ∧ c.toNat ≤ 122 := by
  constructor
  · intro h
    simp only [Char.isLower, Bool.and_eq_true, decide_eq_true_eq] at h
    exact ⟨h.1, h.2⟩
  · intro h
    simp only [Char.isLower, Bool.and_eq_true, decide_eq_true_eq]
    exact ⟨h.1, h.2⟩

theorem toUpper_isLower_eq_false (c : Char) : (c.toUpper).isLower = false := by
  unfold Char.toUpper
  by_cases h : c.toNat ≥ 97 ∧ c.toNat ≤ 122
  · rw [if_pos h]
    have hvalid : (c.toNat - 32).isValidChar := by
      left
      omega
    have hup : (Char.ofNat (c.toNat - 32)).toNat = c.toNat - 32 :=
      toNat_ofNat_of_valid _ hvalid
    rw [Bool.eq_false_iff]
    intro hcon
    rw [isLower_iff] at hcon
    omega
  · rw [if_neg h]
    rw [Bool.eq_false_iff]
    intro hcon
    rw [isLower_iff] at hcon
    exact h ⟨hcon.1, hcon.2⟩

/-- C5: for an open reader and a valid range with start = end, GetBases
returns the empty string at once, with zero store invocations and the
state (in particular the cache slot) exactly as it was. -/
theorem c5_empty_range (cfg : ReaderConfig) (s : ReaderState) (r : Range)
    (hopen : s.isOpen = true) (hvalid : IsValidInterval cfg.contigs r = true)
    (hempty : r.start = r.stop) :
    GetBases cfg s r = ⟨.ok [], s, 0⟩ := by
  unfold GetBases
  simp [hopen, hvalid, hempty]

/-- Witness for c5_empty_range at a one-contig catalog and range
[2, 2) of chr1. -/
theorem c5_empty_range_witness :
    GetBases failCfg exOpen (MakeRange "chr1" 2 2) = ⟨.ok [], exOpen, 0⟩ :=
  c5_empty_range failCfg exOpen (MakeRange "chr1" 2 2) rfl (by decide) rfl

/-- C7: Close on an open reader succeeds and irreversibly closes it:
every subsequent GetBases call returns FailedPrecondition without
touching the state, and a second Close also returns FailedPrecondition. -/
theorem c7_close_semantics (cfg : ReaderConfig) (s : ReaderState)
    (hopen : s.isOpen = true) :
    (Close s).1 = .ok () ∧
    (Close s).2.isOpen = false ∧
    (∀ r : Range,
      GetBases cfg (Close s).2 r = ⟨.error .FailedPrecondition, (Close s).2, 0⟩) ∧
    (Close (Close s).2).1 = .error .FailedPrecondition := by
  unfold Close
  simp only [hopen]
  refine ⟨by simp, by simp, ?_, by simp⟩
  intro r
  unfold GetBases
  simp

/-- Witness for c7_close_semantics on a concrete open reader, with the
post-close GetBases fact instantiated at the range [0, 1) of chr1. -/
theorem c7_close_semantics_witness :
    (Close exOpen).1 = .ok () ∧
    (Close exOpen).2.isOpen = false ∧
    (GetBases failCfg (Close exOpen).2 (MakeRange "chr1" 0 1) =
      ⟨.error .FailedPrecondition, (Close exOpen).2, 0⟩) ∧
    (Close (Close exOpen).2).1 = .error .FailedPrecondition :=
  ⟨(c7_close_semantics failCfg exOpen rfl).1,
   (c7_close_semantics failCfg exOpen rfl).2.1,
   (c7_close_semantics failCfg exOpen rfl).2.2.1 (MakeRange "chr1" 0 1),
   (c7_close_semantics failCfg exOpen rfl).2.2.2⟩

/-- C6: against a store whose every fetch fails (the len <= 0 case of
faidx_fetch_seq), any GetBases call leaves the reader state — in
particular the cached window and cached bases — completely unchanged,
and whenever the call invoked the store at all it returns
InvalidArgument.  A failed fetch never installs or modifies a
CacheEntry. -/
theorem c6_failed_fetch_preserves_cache (cfg : ReaderConfig) (s : ReaderState)
    (r : Range) (hfail : ∀ n a b, cfg.fetch n a b = none) :
    (GetBases cfg s r).state = s ∧
    ((GetBases cfg s r).fetches ≠ 0 →
      (GetBases cfg s r).res = .error .InvalidArgument) := by
  unfold GetBases fetchAndFinish
  simp only [hfail]
  split
  · exact ⟨rfl, by simp⟩
  · split
    · exact ⟨rfl, by simp⟩
    · split
      · exact ⟨rfl, by simp⟩
      · split
        · exact ⟨rfl, by simp⟩
        · exact ⟨rfl, fun _ => rfl⟩

/-- Witness for c6_failed_fetch_preserves_cache: a reader over an
always-failing store, asked for [0, 2) of chr1 (a call that does reach
the store). -/
theorem c6_failed_fetch_preserves_cache_witness :
    (GetBases failCfg exOpen (MakeRange "chr1" 0 2)).state = exOpen ∧
    ((GetBases failCfg exOpen (MakeRange "chr1" 0 2)).fetches ≠ 0 →
      (GetBases failCfg exOpen (MakeRange "chr1" 0 2)).res =
        .error .InvalidArgument) :=
  c6_failed_fetch_preserves_cache failCfg exOpen (MakeRange "chr1" 0 2)
    (fun _ _ _ => rfl)

/-- C8: in uncached mode (caching disabled or request longer than the
budget), GetBases fetches exactly the requested range from the store
(with the half-open end translated to the store's inclusive end),
returns its upper-cased characters as-is, and leaves the existing cache
slot untouched; on fetch failure it returns InvalidArgument, again
leaving the state untouched. -/
theorem c8_uncached_direct (cfg : ReaderConfig) (s : ReaderState) (r : Range)
    (hopen : s.isOpen = true) (hvalid : IsValidInterval cfg.contigs r = true)
    (hne : ¬ r.start = r.stop)
    (hnocache : ¬ (0 < cfg.cache_size_bases ∧
      r.stop - r.start ≤ cfg.cache_size_bases)) :
    (∀ bs, cfg.fetch r.reference_name r.start (r.stop - 1) = some bs →
      GetBases cfg s r = ⟨.ok (bs.map Char.toUpper), s, 1⟩) ∧
    (cfg.fetch r.reference_name r.start (r.stop - 1) = none →
      GetBases cfg s r = ⟨.error .InvalidArgument, s, 1⟩) := by
  have huse : (decide (0 < cfg.cache_size_bases) &&
      decide (r.stop - r.start ≤ cfg.cache_size_bases)) = false := by
    rw [Bool.and_eq_false_iff]
    by_cases h1 : 0 < cfg.cache_size_bases
    · right
      simp only [decide_eq_false_iff_not]
      intro h2
      exact hnocache ⟨h1, h2⟩
    · left
      simp only [decide_eq_false_iff_not]
      exact h1
  constructor
  · intro bs hfetch
    unfold GetBases
    simp only [hopen, hvalid, hne, huse]
    unfold fetchAndFinish
    simp [hfetch]
  · intro hfetch
    unfold GetBases
    simp only [hopen, hvalid, hne, huse]
    unfold fetchAndFinish
    simp [hfetch]

/-- Witness for c8_uncached_direct: cache budget 3, request [0, 4) of
chr1 (longer than the budget) against a genome store. -/
theorem c8_uncached_direct_witness :
    GetBases exCfg exOpen (MakeRange "chr1" 0 4) =
      ⟨.ok (['a', 'c', 'g', 't'].map Char.toUpper), exOpen, 1⟩ :=
  (c8_uncached_direct exCfg exOpen (MakeRange "chr1" 0 4) rfl (by decide)
      (by decide) (by decide)).1 ['a', 'c', 'g', 't'] (by decide)

/-- C3: on a cached-mode miss the fetched window is exactly
W = [range.start, min(range.start + cache_size_bases, contig.length))
— it starts at the requested start — and after a successful fetch the
upper-cased bases are installed wholesale as the new CacheEntry
(whatever entry was there before, from any contig), with the returned
string the prefix of the installed bases of length stop - start. -/
theorem c3_miss_installs_window (cfg : ReaderConfig) (s : ReaderState) (r : Range)
    (c : ContigInfo) (bs : List Char)
    (hopen : s.isOpen = true) (hvalid : IsValidInterval cfg.contigs r = true)
    (hne : ¬ r.start = r.stop)
    (hC : 0 < cfg.cache_size_bases)
    (hsz : r.stop - r.start ≤ cfg.cache_size_bases)
    (hmiss : ∀ w, s.cached_range = some w → RangeContains w r = false)
    (hlook : findContig cfg.contigs r.reference_name = some c)
    (hfetch : cfg.fetch r.reference_name r.start
      (min (r.start + cfg.cache_size_bases) c.n_bases - 1) = some bs) :
    expandedWindow cfg r =
      ⟨r.reference_name, r.start, min (r.start + cfg.cache_size_bases) c.n_bases⟩ ∧
    GetBases cfg s r =
      ⟨.ok ((bs.map Char.toUpper).take (r.stop - r.start).toNat),
       { s with small_read_cache := bs.map Char.toUpper,
                cached_range := some (expandedWindow cfg r) }, 1⟩ := by
  have hwin : expandedWindow cfg r =
      ⟨r.reference_name, r.start, min (r.start + cfg.cache_size_bases) c.n_bases⟩ := by
    unfold expandedWindow
    rw [hlook]
    rfl
  have huse : (decide (0 < cfg.cache_size_bases) &&
      decide (r.stop - r.start ≤ cfg.cache_size_bases)) = true := by
    simp [hC, hsz]
  have hhit : (match s.cached_range with
      | some w => if RangeContains w r then some w else none
      | none => none) = (none : Option Range) := by
    cases hcr : s.cached_range with
    | none => rfl
    | some w => simp [hmiss w hcr]
  refine ⟨hwin, ?_⟩
  unfold GetBases
  simp only [hopen, hvalid, hne, Bool.true_eq_false, not_true, reduceIte, if_false,
    ite_false, decide_True, Bool.false_eq_true, huse, hhit]
  unfold fetchAndFinish
  simp only [if_true, ite_true, hwin]
  rw [show (Range.mk r.reference_name r.start
      (min (r.start + cfg.cache_size_bases) c.n_bases)).stop - 1 =
      min (r.start + cfg.cache_size_bases) c.n_bases - 1 from rfl]
  simp only [hfetch]
  unfold cppSubstr
  simp [hopen]

/-- Witness for c3_miss_installs_window: request [1, 3) of chr1 with an
empty cache; the fetched and installed window is [1, 4). -/
theorem c3_miss_installs_window_witness :
    expandedWindow exCfg (MakeRange "chr1" 1 3) =
      ⟨"chr1", 1, min (1 + 3) 5⟩ ∧
    GetBases exCfg exOpen (MakeRange "chr1" 1 3) =
      ⟨.ok ((['c', 'g', 't'].map Char.toUpper).take 2),
       { exOpen with small_read_cache := ['c', 'g', 't'].map Char.toUpper,
                     cached_range := some (expandedWindow exCfg (MakeRange "chr1" 1 3)) }, 1⟩ :=
  c3_miss_installs_window exCfg exOpen (MakeRange "chr1" 1 3) ⟨"chr1", 5, 0⟩
    ['c', 'g', 't'] rfl (by decide) (by decide) (by decide) (by decide)
    (fun w hw => by simp [exOpen] at hw) (by decide) (by decide)

/-! Elimination and evaluation helpers, and the genome-store
characterization of GetBases used by the remaining claims. -/

theorem findContig_props (contigs : List ContigInfo) (name : String) (c : ContigInfo)
    (h : findContig contigs name = some c) : c ∈ contigs ∧ c.name = name := by
  unfold findContig at h
  refine ⟨List.mem_of_find?_eq_some h, ?_⟩
  have hp := List.find?_some h
  simpa using hp

theorem isValidInterval_elim (contigs : List ContigInfo) (r : Range)
    (h : IsValidInterval contigs r = true) :
    ∃ c, findContig contigs r.reference_name = some c ∧ c ∈ contigs ∧
      c.name = r.reference_name ∧ 0 ≤ r.start ∧ r.start ≤ r.stop ∧
      r.stop ≤ c.n_bases := by
  unfold IsValidInterval at h
  cases hf : findContig contigs r.reference_name with
  | none =>
    rw [hf] at h
    exact absurd h (by simp)
  | some c =>
    rw [hf] at h
    obtain ⟨hmem, hname⟩ := findContig_props contigs r.reference_name c hf
    refine ⟨c, rfl, hmem, hname, ?_⟩
    simpa using h

theorem rangeContains_elim (w r : Range) (h : RangeContains w r = true) :
    w.reference_name = r.reference_name ∧ w.start ≤ r.start ∧ r.stop ≤ w.stop := by
  unfold RangeContains at h
  simp only [Bool.and_eq_true, beq_iff_eq, decide_eq_true_eq] at h
  exact ⟨h.1, h.2.1, h.2.2⟩

theorem genomeFetch_eval (g : String → Option (List Char)) (seq : List Char)
    (name : String) (a b : Int) (hg : g name = some seq)
    (h0 : 0 ≤ a) (hab : a ≤ b) (hb : b < (seq.length : Int)) :
    genomeFetch g name a b = some ((seq.drop a.toNat).take (b - a + 1).toNat) := by
  unfold genomeFetch
  rw [hg]
  exact if_pos ⟨h0, hab, hb⟩

theorem hit_slice_spec (seq : List Char) (w r : Range)
    (h0w : 0 ≤ w.start) (hws : w.start ≤ r.start)
    (hsw : r.stop ≤ w.stop) :
    cppSubstr (((seq.drop w.start.toNat).take (w.stop - w.start).toNat).map Char.toUpper)
        (r.start - w.start).toNat (r.stop - r.start).toNat =
      ((seq.drop r.start.toNat).take (r.stop - r.start).toNat).map Char.toUpper := by
  unfold cppSubstr
  rw [← List.map_drop, ← List.map_take]
  congr 1
  rw [List.drop_take, List.drop_drop, List.take_take]
  rw [show w.start.toNat + (r.start - w.start).toNat = r.start.toNat from by omega]
  congr 1
  omega
theorem fetchAndFinish_uncached_spec (cfg : ReaderConfig)
    (g : String → Option (List Char)) (s : ReaderState) (r : Range)
    (seq : List Char) (hf : cfg.fetch = genomeFetch g)
    (hg : g r.reference_name = some seq)
    (h0 : 0 ≤ r.start) (hlt : r.start < r.stop)
    (hsb : r.stop ≤ (seq.length : Int)) :
    fetchAndFinish cfg s r false = ⟨.ok (specBases g r), s, 1⟩ := by
  unfold fetchAndFinish
  rw [hf]
  simp only [Bool.false_eq_true, reduceIte]
  rw [genomeFetch_eval g seq r.reference_name r.start (r.stop - 1) hg h0
    (by omega) (by omega)]
  unfold specBases
  rw [hg]
  rw [show r.stop - 1 - r.start + 1 = r.stop - r.start from by ring]

theorem fetchAndFinish_cached_spec (cfg : ReaderConfig)
    (g : String → Option (List Char)) (s : ReaderState) (r : Range)
    (c : ContigInfo) (seq : List Char)
    (hf : cfg.fetch = genomeFetch g)
    (hlook : findContig cfg.contigs r.reference_name = some c)
    (hg : g r.reference_name = some seq)
    (hlen : (seq.length : Int) = c.n_bases)
    (h0 : 0 ≤ r.start) (hlt : r.start < r.stop) (hsb : r.stop ≤ c.n_bases)
    (hbud : r.stop - r.start ≤ cfg.cache_size_bases) :
    (fetchAndFinish cfg s r true).res = .ok (specBases g r) ∧
    CacheFaithful g (fetchAndFinish cfg s r true).state ∧
    (fetchAndFinish cfg s r true).state.isOpen = s.isOpen := by
  have hwin : expandedWindow cfg r =
      ⟨r.reference_name, r.start, min (r.start + cfg.cache_size_bases) c.n_bases⟩ := by
    unfold expandedWindow
    rw [hlook]
    rfl
  set m := min (r.start + cfg.cache_size_bases) c.n_bases with hm
  have hstopm : r.stop ≤ m := by omega
  have hmle : m ≤ (seq.length : Int) := by omega
  have hlt2 : r.start < m := by omega
  have heq : fetchAndFinish cfg s r true =
      ⟨.ok ((((seq.drop r.start.toNat).take (m - r.start).toNat).map
          Char.toUpper).take (r.stop - r.start).toNat),
       { s with
          small_read_cache :=
            ((seq.drop r.start.toNat).take (m - r.start).toNat).map Char.toUpper,
          cached_range := some (Range.mk r.reference_name r.start m) }, 1⟩ := by
    unfold fetchAndFinish
    rw [hf]
    simp only [reduceIte]
    rw [hwin]
    dsimp only
    rw [genomeFetch_eval g seq r.reference_name r.start (m - 1) hg h0
      (by omega) (by omega)]
    rw [show m - 1 - r.start + 1 = m - r.start from by ring]
    unfold cppSubstr
    simp only [List.drop_zero]
  rw [heq]
  refine ⟨?_, ?_, rfl⟩
  · simp only
    unfold specBases
    rw [hg]
    rw [← List.map_take, List.take_take]
    rw [show min (r.stop - r.start).toNat (m - r.start).toNat =
      (r.stop - r.start).toNat from by omega]
  · intro w hw
    simp only at hw
    cases hw
    exact ⟨seq, hg, h0, hlt2, hmle, rfl⟩
theorem getBases_spec (cfg : ReaderConfig) (g : String → Option (List Char))
    (s : ReaderState) (r : Range)
    (hf : cfg.fetch = genomeFetch g)
    (hcat : CatalogMatches cfg g)
    (hfaith : CacheFaithful g s)
    (hopen : s.isOpen = true)
    (hvalid : IsValidInterval cfg.contigs r = true) :
    (GetBases cfg s r).res = .ok (specBases g r) ∧
    CacheFaithful g (GetBases cfg s r).state ∧
    (GetBases cfg s r).state.isOpen = true := by
  obtain ⟨c, hlook, hmem, hname, h0, hse, hsb⟩ := isValidInterval_elim _ _ hvalid
  obtain ⟨seq, hg0, hlen⟩ := hcat c hmem
  rw [hname] at hg0
  by_cases hempty : r.start = r.stop
  · have hgb : GetBases cfg s r = ⟨.ok [], s, 0⟩ := by
      unfold GetBases
      simp [hopen, hvalid, hempty]
    rw [hgb]
    refine ⟨?_, hfaith, hopen⟩
    unfold specBases
    rw [hg0]
    rw [show (r.stop - r.start).toNat = 0 from by omega]
    simp
  · have hlt : r.start < r.stop := by omega
    unfold GetBases
    simp only [hopen, hvalid, hempty, Bool.true_eq_false, not_true, reduceIte,
      if_false, ite_false, Bool.false_eq_true, decide_True, not_false_eq_true]
    by_cases huse : (decide (0 < cfg.cache_size_bases) &&
        decide (r.stop - r.start ≤ cfg.cache_size_bases)) = true
    · rw [huse]
      have hC : 0 < cfg.cache_size_bases := by
        have := huse
        simp only [Bool.and_eq_true, decide_eq_true_eq] at this
        exact this.1
      have hbud : r.stop - r.start ≤ cfg.cache_size_bases := by
        have := huse
        simp only [Bool.and_eq_true, decide_eq_true_eq] at this
        exact this.2
      cases hcr : s.cached_range with
      | none =>
        simp only [reduceIte]
        exact fetchAndFinish_cached_spec cfg g s r c seq hf hlook hg0 hlen
          h0 hlt hsb hbud |>.imp id (fun h => h.imp id (fun h2 => by rw [h2, hopen]))
      | some w =>
        by_cases hcont : RangeContains w r = true
        · simp only [hcont, reduceIte]
          obtain ⟨hwname, hws, hsw⟩ := rangeContains_elim w r hcont
          obtain ⟨seqw, hgw, h0w, hwlt, hwle, hcache⟩ := hfaith w hcr
          rw [hwname] at hgw
          rw [hg0] at hgw
          cases hgw
          refine ⟨?_, hfaith, hopen⟩
          have hsp : specBases g r =
              ((seq.drop r.start.toNat).take (r.stop - r.start).toNat).map
                Char.toUpper := by
            unfold specBases
            rw [hg0]
          rw [hcache, hsp, hit_slice_spec seq w r h0w hws hsw]
        · rw [Bool.not_eq_true] at hcont
          have hnone : (if RangeContains w r = true then some w else none) =
              (none : Option Range) := by
            rw [hcont]
            simp
          simp only [hnone, ite_self]
          exact fetchAndFinish_cached_spec cfg g s r c seq hf hlook hg0 hlen
            h0 hlt hsb hbud |>.imp id (fun h => h.imp id (fun h2 => by rw [h2, hopen]))
    · rw [Bool.not_eq_true] at huse
      rw [huse]
      have hsc : (if false = true then
            match s.cached_range with
            | some w => if RangeContains w r = true then some w else none
            | none => none
          else none) = (none : Option Range) := by simp
      simp only [hsc]
      have hun : fetchAndFinish cfg s r false = ⟨.ok (specBases g r), s, 1⟩ :=
        fetchAndFinish_uncached_spec cfg g s r seq hf hg0 h0 hlt (by omega)
      rw [hun]
      exact ⟨rfl, hfaith, hopen⟩

/-- The example catalog agrees with the example genome. -/
theorem exCfg_matches : CatalogMatches exCfg exGenome := by
  intro c hc
  simp only [exCfg, List.mem_singleton] at hc
  subst hc
  exact ⟨['a', 'c', 'g', 't', 'a'], rfl, rfl⟩

/-- A freshly opened reader's empty cache slot is trivially faithful. -/
theorem exOpen_faithful : CacheFaithful exGenome exOpen := by
  intro w hw
  simp [exOpen] at hw

/-- C1: for an open reader over a store realizing the fasta genome,
with a catalog matching the genome and any faithful (reachable) cache
state, GetBases succeeds on every valid range and returns exactly
stop - start characters, none of them lower-case.  The cache state is
universally quantified, so the conclusion holds on the cache-hit path,
the cached-miss path and the uncached path alike. -/
theorem c1_getBases_length_upper (cfg : ReaderConfig)
    (g : String → Option (List Char)) (s : ReaderState) (r : Range)
    (hf : cfg.fetch = genomeFetch g) (hcat : CatalogMatches cfg g)
    (hfaith : CacheFaithful g s) (hopen : s.isOpen = true)
    (hvalid : IsValidInterval cfg.contigs r = true) :
    ∃ bs, (GetBases cfg s r).res = .ok bs ∧
      (bs.length : Int) = r.stop - r.start ∧
      ∀ ch ∈ bs, ch.isLower = false := by
  obtain ⟨hres, hfa, hoa⟩ := getBases_spec cfg g s r hf hcat hfaith hopen hvalid
  refine ⟨specBases g r, hres, ?_, ?_⟩
  · obtain ⟨c, hlook, hmem, hname, h0, hse, hsb⟩ := isValidInterval_elim _ _ hvalid
    obtain ⟨seq, hg0, hlen⟩ := hcat c hmem
    rw [hname] at hg0
    unfold specBases
    rw [hg0]
    simp only [List.length_map, List.length_take, List.length_drop]
    omega
  · intro ch hch
    unfold specBases at hch
    cases hgr : g r.reference_name with
    | none =>
      rw [hgr] at hch
      simp at hch
    | some seq =>
      rw [hgr] at hch
      simp only [List.mem_map] at hch
      obtain ⟨a, _, ha⟩ := hch
      rw [← ha]
      exact toUpper_isLower_eq_false a

/-- Witness for c1_getBases_length_upper: the range [0, 2) of chr1 on a
freshly opened example reader. -/
theorem c1_getBases_length_upper_witness :
    ∃ bs, (GetBases exCfg exOpen (MakeRange "chr1" 0 2)).res = .ok bs ∧
      (bs.length : Int) =
        (MakeRange "chr1" 0 2).stop - (MakeRange "chr1" 0 2).start ∧
      ∀ ch ∈ bs, ch.isLower = false :=
  c1_getBases_length_upper exCfg exGenome exOpen (MakeRange "chr1" 0 2) rfl
    exCfg_matches exOpen_faithful rfl (by decide)

/-- C4: idempotence: for one fixed reader, GetBases on the same valid
range from any two faithful (reachable) cache states returns the same
string, and calling it twice in a row returns the same string both
times, whatever the prior cache state was. -/
theorem c4_idempotent (cfg : ReaderConfig) (g : String → Option (List Char))
    (s1 s2 : ReaderState) (r : Range)
    (hf : cfg.fetch = genomeFetch g) (hcat : CatalogMatches cfg g)
    (h1 : CacheFaithful g s1) (h2 : CacheFaithful g s2)
    (ho1 : s1.isOpen = true) (ho2 : s2.isOpen = true)
    (hvalid : IsValidInterval cfg.contigs r = true) :
    (GetBases cfg s1 r).res = (GetBases cfg s2 r).res ∧
    (GetBases cfg (GetBases cfg s1 r).state r).res = (GetBases cfg s1 r).res := by
  obtain ⟨ha, hfa, hoa⟩ := getBases_spec cfg g s1 r hf hcat h1 ho1 hvalid
  obtain ⟨hb, _, _⟩ := getBases_spec cfg g s2 r hf hcat h2 ho2 hvalid
  obtain ⟨hc, _, _⟩ :=
    getBases_spec cfg g (GetBases cfg s1 r).state r hf hcat hfa hoa hvalid
  exact ⟨ha.trans hb.symm, hc.trans ha.symm⟩

/-- Witness for c4_idempotent: the empty-cache state compared with
itself, on the range [1, 3) of chr1. -/
theorem c4_idempotent_witness :
    (GetBases exCfg exOpen (MakeRange "chr1" 1 3)).res =
      (GetBases exCfg exOpen (MakeRange "chr1" 1 3)).res ∧
    (GetBases exCfg (GetBases exCfg exOpen (MakeRange "chr1" 1 3)).state
        (MakeRange "chr1" 1 3)).res =
      (GetBases exCfg exOpen (MakeRange "chr1" 1 3)).res :=
  c4_idempotent exCfg exGenome exOpen exOpen (MakeRange "chr1" 1 3) rfl
    exCfg_matches exOpen_faithful exOpen_faithful rfl rfl (by decide)

theorem iterFrom_spec (cfg : ReaderConfig) (g : String → Option (List Char))
    (hf : cfg.fetch = genomeFetch g) (hcat : CatalogMatches cfg g)
    (hself : ∀ c ∈ cfg.contigs,
      findContig cfg.contigs c.name = some c ∧ 0 ≤ c.n_bases) :
    ∀ fuel pos (s : ReaderState), CacheFaithful g s → s.isOpen = true →
      cfg.contigs.length - pos < fuel →
      ∃ sf, iterFrom cfg s pos fuel =
          some ((cfg.contigs.drop pos).map
            (fun c => (c.name, specBases g (MakeRange c.name 0 c.n_bases))), sf) ∧
        CacheFaithful g sf ∧ sf.isOpen = true := by
  intro fuel
  induction fuel with
  | zero =>
    intro pos s _ _ hfuel
    exact absurd hfuel (by omega)
  | succ fuel ih =>
    intro pos s hfaith hopen hfuel
    by_cases hpos : pos < cfg.contigs.length
    · obtain ⟨hlook, h0nb⟩ := hself (cfg.contigs.get ⟨pos, hpos⟩)
        (cfg.contigs.get_mem pos hpos)
      have hval : IsValidInterval cfg.contigs
          (MakeRange (cfg.contigs.get ⟨pos, hpos⟩).name 0
            (cfg.contigs.get ⟨pos, hpos⟩).n_bases) = true := by
        unfold IsValidInterval
        rw [show (MakeRange (cfg.contigs.get ⟨pos, hpos⟩).name 0
          (cfg.contigs.get ⟨pos, hpos⟩).n_bases).reference_name =
          (cfg.contigs.get ⟨pos, hpos⟩).name from rfl]
        rw [hlook]
        simp only [decide_eq_true_eq]
        exact ⟨le_refl 0, h0nb, le_refl _⟩
      obtain ⟨hres, hfa, hoa⟩ := getBases_spec cfg g s
        (MakeRange (cfg.contigs.get ⟨pos, hpos⟩).name 0
          (cfg.contigs.get ⟨pos, hpos⟩).n_bases) hf hcat hfaith hopen hval
      have hnext : Next cfg s pos =
          some (some ((cfg.contigs.get ⟨pos, hpos⟩).name,
              specBases g (MakeRange (cfg.contigs.get ⟨pos, hpos⟩).name 0
                (cfg.contigs.get ⟨pos, hpos⟩).n_bases)),
            (GetBases cfg s (MakeRange (cfg.contigs.get ⟨pos, hpos⟩).name 0
              (cfg.contigs.get ⟨pos, hpos⟩).n_bases)).state, pos + 1) := by
        unfold Next
        rw [dif_pos hpos]
        simp only [hres]
      obtain ⟨sf, heq, hffin, hofin⟩ := ih (pos + 1)
        (GetBases cfg s (MakeRange (cfg.contigs.get ⟨pos, hpos⟩).name 0
          (cfg.contigs.get ⟨pos, hpos⟩).n_bases)).state hfa hoa (by omega)
      refine ⟨sf, ?_, hffin, hofin⟩
      show (match Next cfg s pos with
        | none => none
        | some (none, s', _) => some ([], s')
        | some (some r0, s', pos') =>
          match iterFrom cfg s' pos' fuel with
          | none => none
          | some (l, sf) => some (r0 :: l, sf)) = _
      simp only [hnext, heq]
      have hdrop : cfg.contigs.drop pos =
          cfg.contigs.get ⟨pos, hpos⟩ :: cfg.contigs.drop (pos + 1) :=
        List.drop_eq_getElem_cons hpos
      rw [hdrop]
      rfl
    · refine ⟨s, ?_, hfaith, hopen⟩
      have hnext : Next cfg s pos = some (none, s, pos) := by
        unfold Next
        rw [dif_neg hpos]
      show (match Next cfg s pos with
        | none => none
        | some (none, s', _) => some ([], s')
        | some (some r0, s', pos') =>
          match iterFrom cfg s' pos' fuel with
          | none => none
          | some (l, sf) => some (r0 :: l, sf)) = _
      simp only [hnext]
      rw [List.drop_eq_nil_of_le (by omega)]
      rfl

/-- C9: Iterate() yields exactly one (name, fullSequence) pair per
catalog contig, in catalog ordinal order — the yielded list is the map
of the catalog — where each fullSequence is the GetBases(name, 0,
length) value (the upper-cased whole contig), obtained through the same
cache path; iteration terminates after the last entry, and an empty
catalog yields the empty list. -/
theorem c9_iterate_yields_catalog (cfg : ReaderConfig)
    (g : String → Option (List Char)) (s : ReaderState)
    (hf : cfg.fetch = genomeFetch g) (hcat : CatalogMatches cfg g)
    (hfaith : CacheFaithful g s) (hopen : s.isOpen = true)
    (hself : ∀ c ∈ cfg.contigs,
      findContig cfg.contigs c.name = some c ∧ 0 ≤ c.n_bases) :
    ∃ sf, iterateAll cfg s =
      some (cfg.contigs.map
        (fun c => (c.name, specBases g (MakeRange c.name 0 c.n_bases))), sf) := by
  obtain ⟨sf, heq, _, _⟩ := iterFrom_spec cfg g hf hcat hself
    (cfg.contigs.length + 1) 0 s hfaith hopen (by omega)
  refine ⟨sf, ?_⟩
  unfold iterateAll
  rw [heq, List.drop_zero]

/-- Witness for c9_iterate_yields_catalog: the example one-contig
catalog, iterated from a fresh reader. -/
theorem c9_iterate_yields_catalog_witness :
    ∃ sf, iterateAll exCfg exOpen =
      some (exCfg.contigs.map
        (fun c => (c.name, specBases exGenome (MakeRange c.name 0 c.n_bases))), sf) :=
  c9_iterate_yields_catalog exCfg exGenome exOpen rfl exCfg_matches
    exOpen_faithful rfl (by decide)

/-- C10: refuted by the code.  When GetBases fails during iteration
(here: the reader was closed, so GetBases returns the typed error
FailedPrecondition), IndexedFastaReaderIterable::Next does not return
that error to the caller: it calls ValueOrDie on the status, which
CHECK-fails and terminates the program (modelled by Next returning
none, the abort outcome, while GetBases itself carries a typed error). -/
theorem c10_next_aborts_on_error :
    Next exCfg ⟨false, [], none⟩ 0 = none ∧
    (GetBases exCfg ⟨false, [], none⟩ (MakeRange "chr1" 0 5)).res =
      .error .FailedPrecondition := by
  constructor
  · rfl
  · rfl

/-- Hit path of GetBases: with a containing cache entry and the request
within the cache budget, the call slices the cached bases, makes no
store invocation and leaves the state unchanged. -/
theorem getBases_hit (cfg : ReaderConfig) (s : ReaderState) (r : Range) (w : Range)
    (hopen : s.isOpen = true) (hvalid : IsValidInterval cfg.contigs r = true)
    (hne : ¬ r.start = r.stop) (hC : 0 < cfg.cache_size_bases)
    (hbud : r.stop - r.start ≤ cfg.cache_size_bases)
    (hcr : s.cached_range = some w) (hcont : RangeContains w r = true) :
    GetBases cfg s r =
      ⟨.ok (cppSubstr s.small_read_cache (r.start - w.start).toNat
        (r.stop - r.start).toNat), s, 0⟩ := by
  unfold GetBases
  simp only [hopen, hvalid, hne, Bool.true_eq_false, not_true, reduceIte, if_false,
    ite_false, Bool.false_eq_true, hcr]
  have huse : (decide (0 < cfg.cache_size_bases) &&
      decide (r.stop - r.start ≤ cfg.cache_size_bases)) = true := by
    simp [hC, hbud]
  rw [huse]
  simp only [hcont, reduceIte]

/-- A cached-mode call that invoked the store and succeeded must have
installed the expansion window as the cache entry. -/
theorem getBases_miss_installs (cfg : ReaderConfig) (s : ReaderState)
    (name : String) (a b : Int) (c : ContigInfo)
    (hopen : s.isOpen = true)
    (hvalid : IsValidInterval cfg.contigs (MakeRange name a b) = true)
    (hab : a < b) (hC : 0 < cfg.cache_size_bases)
    (hbud : b - a ≤ cfg.cache_size_bases)
    (hlook : findContig cfg.contigs name = some c)
    (hmiss : (GetBases cfg s (MakeRange name a b)).fetches = 1)
    (hok : (GetBases cfg s (MakeRange name a b)).res.isOk = true) :
    (GetBases cfg s (MakeRange name a b)).state.cached_range =
      some (MakeRange name a (min (a + cfg.cache_size_bases) c.n_bases)) := by
  have hwin : expandedWindow cfg (MakeRange name a b) =
      MakeRange name a (min (a + cfg.cache_size_bases) c.n_bases) := by
    unfold expandedWindow
    rw [show (MakeRange name a b).reference_name = name from rfl, hlook]
    rfl
  have hne : ¬ (MakeRange name a b).start = (MakeRange name a b).stop := by
    show ¬ a = b
    omega
  have huse : (decide (0 < cfg.cache_size_bases) &&
      decide ((MakeRange name a b).stop - (MakeRange name a b).start ≤
        cfg.cache_size_bases)) = true := by
    simp only [Bool.and_eq_true, decide_eq_true_eq]
    exact ⟨hC, hbud⟩
  unfold GetBases at hmiss hok ⊢
  simp only [hopen, hvalid, hne, Bool.true_eq_false, not_true, reduceIte, if_false,
    ite_false, Bool.false_eq_true, huse] at hmiss hok ⊢
  cases hch : (match s.cached_range with
      | some w => if RangeContains w (MakeRange name a b) = true then some w else none
      | none => none) with
  | some w =>
    rw [hch] at hmiss
    simp at hmiss
  | none =>
    rw [hch] at hok
    unfold fetchAndFinish at hok ⊢
    simp only [reduceIte] at hok ⊢
    rw [hwin] at hok ⊢
    cases hfet : cfg.fetch (MakeRange name a
        (min (a + cfg.cache_size_bases) c.n_bases)).reference_name
        (MakeRange name a (min (a + cfg.cache_size_bases) c.n_bases)).start
        ((MakeRange name a (min (a + cfg.cache_size_bases) c.n_bases)).stop - 1) with
    | none =>
      rw [hfet] at hok
      simp [Except.isOk, Except.toBool] at hok
    | some bs =>
      rfl

theorem makeRange_start (n : String) (x y : Int) : (MakeRange n x y).start = x := rfl

theorem makeRange_stop (n : String) (x y : Int) : (MakeRange n x y).stop = y := rfl

theorem fetchAndFinish_preserves_isOpen (cfg : ReaderConfig) (s : ReaderState)
    (range : Range) (u : Bool) :
    (fetchAndFinish cfg s range u).state.isOpen = s.isOpen := by
  unfold fetchAndFinish
  split
  · dsimp only
    split
    · rfl
    · rfl
  · dsimp only
    split
    · rfl
    · rfl

theorem getBases_preserves_isOpen (cfg : ReaderConfig) (s : ReaderState)
    (r : Range) : (GetBases cfg s r).state.isOpen = s.isOpen := by
  unfold GetBases
  split
  · rfl
  · split
    · rfl
    · split
      · rfl
      · dsimp only
        split
        · rfl
        · exact fetchAndFinish_preserves_isOpen cfg s r _

theorem getBases_empty (cfg : ReaderConfig) (s : ReaderState) (r : Range)
    (hopen : s.isOpen = true) (hvalid : IsValidInterval cfg.contigs r = true)
    (hempty : r.start = r.stop) : GetBases cfg s r = ⟨.ok [], s, 0⟩ := by
  unfold GetBases
  simp [hopen, hvalid, hempty]

/-- C2 (amended): after a successful GetBases(name, a, b) with a < b and
b - a <= C that was answered through the store (a miss, so it installed
the cache entry), every subsequent valid GetBases(name, a', b') with
a <= a' and b' <= min(a + C, contigLength) is answered without any store
invocation and leaves the state untouched — so the guarantee persists
until some other call replaces the cache entry.  The original claim,
which also covers a first call answered from a pre-existing cache entry,
is refuted by c2_counterexample. -/
theorem c2_amended_containment (cfg : ReaderConfig) (s : ReaderState)
    (name : String) (a b : Int) (c : ContigInfo)
    (hopen : s.isOpen = true)
    (hvalid : IsValidInterval cfg.contigs (MakeRange name a b) = true)
    (hab : a < b) (hC : 0 < cfg.cache_size_bases)
    (hbud : b - a ≤ cfg.cache_size_bases)
    (hlook : findContig cfg.contigs name = some c)
    (hmiss : (GetBases cfg s (MakeRange name a b)).fetches = 1)
    (hok : (GetBases cfg s (MakeRange name a b)).res.isOk = true) :
    ∀ a' b' : Int, a ≤ a' → b' ≤ min (a + cfg.cache_size_bases) c.n_bases →
      IsValidInterval cfg.contigs (MakeRange name a' b') = true →
      (GetBases cfg (GetBases cfg s (MakeRange name a b)).state
          (MakeRange name a' b')).fetches = 0 ∧
      (GetBases cfg (GetBases cfg s (MakeRange name a b)).state
          (MakeRange name a' b')).state =
        (GetBases cfg s (MakeRange name a b)).state := by
  intro a' b' ha hb hvalid2
  have hcr := getBases_miss_installs cfg s name a b c hopen hvalid hab hC hbud
    hlook hmiss hok
  have hopen1 : (GetBases cfg s (MakeRange name a b)).state.isOpen = true := by
    rw [getBases_preserves_isOpen]
    exact hopen
  by_cases hempty : a' = b'
  · have hgb := getBases_empty cfg (GetBases cfg s (MakeRange name a b)).state
      (MakeRange name a' b') hopen1 hvalid2
      (by rw [makeRange_start, makeRange_stop]; exact hempty)
    rw [hgb]
    exact ⟨rfl, rfl⟩
  · have ha'b' : a' ≤ b' := by
      obtain ⟨c2, _, _, _, h0, hle, _⟩ := isValidInterval_elim _ _ hvalid2
      rw [makeRange_start, makeRange_stop] at hle
      exact hle
    have hcont : RangeContains
        (MakeRange name a (min (a + cfg.cache_size_bases) c.n_bases))
        (MakeRange name a' b') = true := by
      unfold RangeContains
      simp only [Bool.and_eq_true, beq_iff_eq, decide_eq_true_eq,
        makeRange_start, makeRange_stop]
      exact ⟨rfl, ha, hb⟩
    have hne2 : ¬ (MakeRange name a' b').start = (MakeRange name a' b').stop := by
      rw [makeRange_start, makeRange_stop]
      exact hempty
    have hbud2 : (MakeRange name a' b').stop - (MakeRange name a' b').start ≤
        cfg.cache_size_bases := by
      rw [makeRange_start, makeRange_stop]
      have hb2 : b' ≤ a + cfg.cache_size_bases :=
        le_trans hb (min_le_left _ _)
      omega
    have hgb := getBases_hit cfg (GetBases cfg s (MakeRange name a b)).state
      (MakeRange name a' b')
      (MakeRange name a (min (a + cfg.cache_size_bases) c.n_bases))
      hopen1 hvalid2 hne2 hC hbud2 hcr hcont
    rw [hgb]
    exact ⟨rfl, rfl⟩

/-- Witness for c2_amended_containment: first call [0, 5) of chr1 from a
fresh reader (a miss installing [0, 10)), subsequent call [2, 8). -/
theorem c2_amended_containment_witness :
    (GetBases c2Cfg (GetBases c2Cfg ⟨true, [], none⟩ (MakeRange "chr1" 0 5)).state
        (MakeRange "chr1" 2 8)).fetches = 0 ∧
    (GetBases c2Cfg (GetBases c2Cfg ⟨true, [], none⟩ (MakeRange "chr1" 0 5)).state
        (MakeRange "chr1" 2 8)).state =
      (GetBases c2Cfg ⟨true, [], none⟩ (MakeRange "chr1" 0 5)).state :=
  c2_amended_containment c2Cfg ⟨true, [], none⟩ "chr1" 0 5 ⟨"chr1", 100, 0⟩
    rfl (by decide) (by decide) (by decide) (by decide) (by decide) rfl rfl
    2 8 (by decide) (by decide) (by decide)

/-- C2 as stated is false on the code.  Reader: chr1 of length 100,
budget C = 10; from a fresh reader, GetBases(chr1, 0, 5) installs window
[0, 10).  The first call of the claim is GetBases(chr1, 5, 8) = (a, b):
it succeeds (a cache hit), 5 < 8 and 8 - 5 <= 10, and it does not
replace the cache entry.  The subsequent call GetBases(chr1, 5, 15) =
(a', b') is valid and satisfies a <= a' and b' <= min(a + C, 100) = 15,
yet it invokes the store once (fetches = 1), not zero times as the
claim requires. -/
theorem c2_counterexample :
    ((GetBases c2Cfg (GetBases c2Cfg ⟨true, [], none⟩
        (MakeRange "chr1" 0 5)).state (MakeRange "chr1" 5 8)).res).isOk = true ∧
    (GetBases c2Cfg (GetBases c2Cfg ⟨true, [], none⟩
        (MakeRange "chr1" 0 5)).state (MakeRange "chr1" 5 8)).state =
      (GetBases c2Cfg ⟨true, [], none⟩ (MakeRange "chr1" 0 5)).state ∧
    IsValidInterval c2Cfg.contigs (MakeRange "chr1" 5 15) = true ∧
    ((5:Int) < 8 ∧ (8:Int) - 5 ≤ 10 ∧ (5:Int) ≤ 5 ∧
      (15:Int) ≤ min (5 + 10) 100) ∧
    (GetBases c2Cfg (GetBases c2Cfg (GetBases c2Cfg ⟨true, [], none⟩
        (MakeRange "chr1" 0 5)).state (MakeRange "chr1" 5 8)).state
      (MakeRange "chr1" 5 15)).fetches = 1 :=
  ⟨rfl, rfl, by decide, by decide, rfl⟩

end Nucleus
